import Mathlib

/-!
Shallow embedding of the codec-compare core: the metric catalog and
statistics aggregator (src/metric.ts), the batch selection construction
(batch_selection.ts) and the matches panel request handler (matches_ui.ts).

Modelling conventions:
* JavaScript numbers holding data values are modelled as rationals (`ℚ`);
  the only non-finite value the core produces is the `Infinity` returned by
  `getRatio`, so ratios live in `ENum`, rationals extended with `inf`.
* Out-of-range array reads (which the source rules out by invariant) are
  modelled with `List.getD` / `List.getElem?`.
* In-place mutation is modelled functionally: a function that mutates an
  array in the source returns the updated list here.
* Object identity (JavaScript `!==` on metrics) is modelled as list position:
  the metric lists built by `createMetrics` hold pairwise distinct objects.
-/

namespace CodecCompare

/-- Rationals extended with the single `Infinity` produced by `getRatio`. -/
inductive ENum where
  | fin (q : ℚ)
  | inf
deriving DecidableEq

/-- Models Math.min on ratio values: Infinity is absorbed by any finite value. -/
def ENum.min : ENum → ENum → ENum
  | .fin a, .fin b => .fin (Min.min a b)
  | .fin a, .inf => .fin a
  | .inf, x => x

/-- Models Math.max on ratio values: Infinity absorbs any value. -/
def ENum.max : ENum → ENum → ENum
  | .fin a, .fin b => .fin (Max.max a b)
  | .fin _, .inf => .inf
  | .inf, _ => .inf

/-- Modelled from the spec: `entry.ts` is not under src/. The semantic field
ids the spec names explicitly, plus `custom` covering every other id of the
enumeration. -/
inductive FieldId where
  | width
  | height
  | encodedSize
  | encodingDuration
  | decodingDuration
  | effort
  | quality
  | custom (n : ℕ)
deriving DecidableEq, Inhabited

/-- Modelled from the spec: `entry.ts` is not under src/. One column's
metadata: semantic id, numeric flag, observed numeric range and observed
unique values (for categorical fields). -/
structure Field where
  id : FieldId
  isNumber : Bool
  rangeStart : ℚ := 0
  rangeEnd : ℚ := 0
  uniqueValuesArray : List String := []
deriving DecidableEq, Inhabited

/-- Modelled from the spec: `entry.ts` is not under src/. Fields are
comparable when they have the same semantic id and the same numeric-ness
(spec sections 4.1 and 4.3); observed ranges and value sets are ignored. -/
def areFieldsComparable (f g : Field) : Bool :=
  decide (f.id = g.id) && (f.isNumber == g.isNumber)

/-- Modelled from the spec: `entry.ts` is not under src/. One experiment's
result table. Cells are read by the core only through the `as number` cast
in `computeStats`, so rows are modelled as rows of rationals. -/
structure Batch where
  index : ℕ
  fields : List Field
  rows : List (List ℚ)
deriving DecidableEq, Inhabited

/-- References two fields from two selected batches to compare data points
(class `FieldMetric` in metric.ts; `enabled` starts false). -/
structure FieldMetric where
  enabled : Bool := false
  fieldIndices : List ℕ
deriving DecidableEq

instance : Inhabited FieldMetric := ⟨{ fieldIndices := [] }⟩

/-- Modelled from the spec: `geometric_mean.ts` is not under src/. The
accumulator state: the running product of the added ratios and their count
(an exact reformulation of the spec's log-domain sum, since
`exp ((log x + log y) / n) = (x * y) ^ (1 / n)` over `ℝ≥0∞`, where a zero
ratio drives the product — hence the mean — to zero and an infinite ratio
drives both to infinity). -/
structure GeometricMean where
  product : ENNReal
  count : ℕ

/-- The state of `new GeometricMean()`: nothing accumulated yet. -/
noncomputable def GeometricMean.empty : GeometricMean := { product := 1, count := 0 }

/-- The ratio stream values as nonnegative extended reals (the spec restricts
the stream to non-negative ratios; `Infinity` maps to `⊤`). -/
noncomputable def ENum.toENNReal : ENum → ENNReal
  | .fin q => ENNReal.ofReal q
  | .inf => ⊤

/-- Ingest one ratio (the add method of class GeometricMean). -/
noncomputable def GeometricMean.add (g : GeometricMean) (ratio : ENum) : GeometricMean :=
  { product := g.product * ratio.toENNReal, count := g.count + 1 }

/-- Read the accumulator (the get method): the identity `1` before any insertion, otherwise the
count-th root of the product (`0 ^ (1/n) = 0` and `⊤ ^ (1/n) = ⊤` give the
zero- and infinity-propagation the spec requires). -/
noncomputable def GeometricMean.get (g : GeometricMean) : ENNReal :=
  if g.count = 0 then 1 else g.product ^ ((1 : ℝ) / g.count)

/-- Aggregated stats for a FieldMetric (class `FieldMetricStats` in
metric.ts); every field defaults to the identity `1`. -/
structure FieldMetricStats where
  geometricMean : ENNReal
  minRatio : ENum
  maxRatio : ENum
  arithmeticMean : ENum

/-- The field values of `new FieldMetricStats()`: all four statistics start
at the identity `1`. -/
noncomputable def FieldMetricStats.init : FieldMetricStats :=
  { geometricMean := 1, minRatio := .fin 1, maxRatio := .fin 1, arithmeticMean := .fin 1 }

noncomputable instance : Inhabited FieldMetricStats := ⟨FieldMetricStats.init⟩

/-- Returns a/b with some arbitrary real definition if both a and b are 0
(`getRatio` in metric.ts, line 131). -/
def getRatio (a b : ℚ) : ENum :=
  if b = 0 then (if a = 0 then .fin 1 else .inf) else .fin (a / b)

/-- Modelled from the spec: `matcher.ts` is not under src/. A matched pair of
row indices, one into the left batch's rows, one into the right batch's. -/
structure Match where
  leftIndex : ℕ
  rightIndex : ℕ
deriving DecidableEq

/-- Reads `batch.rows[rowIndex][fieldIndex]` the way computeStats does. -/
def rowValue (b : Batch) (rowIndex fieldIndex : ℕ) : ℚ :=
  (b.rows.getD rowIndex []).getD fieldIndex 0

/-- The ratio computed by computeStats for one match of one metric, given the
left and right field indices. -/
def matchRatio (l r : Batch) (lfi rfi : ℕ) (dp : Match) : ENum :=
  getRatio (rowValue l dp.leftIndex lfi) (rowValue r dp.rightIndex rfi)

/-- The loop state of computeStats for one metric: the stats record under
construction, the number of data points seen, the geometric mean
accumulator, and the sums of left and right values. -/
structure StatsAcc where
  fieldStats : FieldMetricStats
  numDataPoints : ℕ
  gm : GeometricMean
  leftSum : ℚ
  rightSum : ℚ

/-- One iteration of the computeStats loop (metric.ts lines 152-173). -/
noncomputable def statsStep (l r : Batch) (lfi rfi : ℕ) (acc : StatsAcc) (dp : Match) :
    StatsAcc :=
  let leftValue := rowValue l dp.leftIndex lfi
  let rightValue := rowValue r dp.rightIndex rfi
  let ratio := getRatio leftValue rightValue
  { fieldStats :=
      if acc.numDataPoints = 0 then
        { acc.fieldStats with minRatio := ratio, maxRatio := ratio }
      else
        { acc.fieldStats with
            minRatio := ENum.min acc.fieldStats.minRatio ratio,
            maxRatio := ENum.max acc.fieldStats.maxRatio ratio },
    numDataPoints := acc.numDataPoints + 1,
    gm := acc.gm.add ratio,
    leftSum := acc.leftSum + leftValue,
    rightSum := acc.rightSum + rightValue }

/-- The body of the outer computeStats loop for one metric (metric.ts lines
143-178): fold the matches, then finalize geometricMean and arithmeticMean
only when at least one data point was seen. -/
noncomputable def statsForMetric (leftBatch rightBatch : Batch) (dataPoints : List Match)
    (metric : FieldMetric) : FieldMetricStats :=
  let leftFieldIndex := metric.fieldIndices.getD leftBatch.index 0
  let rightFieldIndex := metric.fieldIndices.getD rightBatch.index 0
  let acc := dataPoints.foldl
    (statsStep leftBatch rightBatch leftFieldIndex rightFieldIndex)
    { fieldStats := FieldMetricStats.init, numDataPoints := 0, gm := GeometricMean.empty,
      leftSum := 0, rightSum := 0 }
  if 0 < acc.numDataPoints then
    { acc.fieldStats with
        geometricMean := acc.gm.get,
        arithmeticMean := getRatio acc.leftSum acc.rightSum }
  else acc.fieldStats

/-- Returns FieldMetricStats for each of the metrics, computed on the matched
filtered dataPoints from the leftBatch and rightBatch (`computeStats` in
metric.ts, lines 139-181). -/
noncomputable def computeStats (leftBatch rightBatch : Batch) (dataPoints : List Match)
    (metrics : List FieldMetric) : List FieldMetricStats :=
  metrics.map (statsForMetric leftBatch rightBatch dataPoints)

/-- The inner loop of createMetrics (metric.ts lines 53-65): for each other
batch in turn, find the first comparable field; `none` models the `break`
that leaves the candidate with too few indices. Also accumulates the
conjunction of the matched fields' isNumber flags. -/
def findComparableIndices (field : Field) : List Batch → Option (List ℕ × Bool)
  | [] => some ([], true)
  | otherBatch :: rest =>
    match otherBatch.fields.findIdx? (fun otherField => areFieldsComparable field otherField) with
    | none => none
    | some otherFieldIndex =>
      match findComparableIndices field rest with
      | none => none
      | some (indices, isNum) =>
        some (otherFieldIndex :: indices,
          (otherBatch.fields.getD otherFieldIndex default).isNumber && isNum)

/-- The candidate test of createMetrics for one field of the first batch
(metric.ts lines 50-76): drop the candidate if some batch has no comparable
field, if the fields are not all numeric, or if the semantic id is a source
image dimension or an encoder setting. -/
def metricCandidate (otherBatches : List Batch) (fi : ℕ × Field) : Option FieldMetric :=
  match findComparableIndices fi.2 otherBatches with
  | none => none
  | some (indices, isNum) =>
    if fi.2.isNumber && isNum then
      if fi.2.id = FieldId.width ∨ fi.2.id = FieldId.height ∨
         fi.2.id = FieldId.effort ∨ fi.2.id = FieldId.quality then none
      else some { enabled := false, fieldIndices := fi.1 :: indices }
    else none

/-- Returns all possible metrics given two batches (`createMetrics` in
metric.ts, lines 43-79). -/
def createMetrics (batches : List Batch) : List FieldMetric :=
  match batches with
  | [] => []
  | firstBatch :: otherBatches =>
    firstBatch.fields.enum.filterMap (metricCandidate otherBatches)

/-- The field id a metric refers to in the first batch (the local
`metricToFieldId` in selectPlotMetrics, also inlined in
enableDefaultMetrics). -/
def metricFieldId (firstBatch : Batch) (m : FieldMetric) : FieldId :=
  (firstBatch.fields.getD (m.fieldIndices.getD 0 0) default).id

/-- Arbitrarily enable some metric, focusing on lossy image comparison
(`enableDefaultMetrics` in metric.ts, lines 82-92); in-place mutation is
modelled by returning the updated metric list, the batch is not touched. -/
def enableDefaultMetrics (firstBatch : Batch) (metrics : List FieldMetric) :
    List FieldMetric :=
  metrics.map fun metric =>
    if metricFieldId firstBatch metric = FieldId.encodedSize ∨
       metricFieldId firstBatch metric = FieldId.encodingDuration ∨
       metricFieldId firstBatch metric = FieldId.decodingDuration then
      { metric with enabled := true }
    else metric

/-- Selects two metrics no matter what, preferring enabled metrics
(`selectPlotMetrics` in metric.ts, lines 95-128). The `m !== xMetric`
object-identity test of the source is modelled as list-position inequality. -/
def selectPlotMetrics (firstBatch : Batch) (metrics : List FieldMetric) :
    Option FieldMetric × Option FieldMetric :=
  match metrics.find? (fun m =>
          m.enabled && decide (metricFieldId firstBatch m = FieldId.encodedSize)),
        (match metrics.find? (fun m =>
                 m.enabled && decide (metricFieldId firstBatch m = FieldId.encodingDuration)) with
         | some y => some y
         | none => metrics.find? (fun m =>
             m.enabled && decide (metricFieldId firstBatch m = FieldId.decodingDuration))) with
  | some x, some y => (some x, some y)
  | _, _ =>
    match metrics.findIdx? (fun m => m.enabled) with
    | some i =>
      (some (metrics.getD i default),
       some (match metrics.enum.find? (fun p => p.2.enabled && decide (p.1 ≠ i)) with
             | some p => p.2
             | none => metrics.getD i default))
    | none =>
      match metrics with
      | [] => (none, none)
      | m :: _ => (some m, some m)

/-- Modelled from the claim and spec wording for selectPlotMetrics: the
four-step precedence, written step by step. Step 1: enabled encoded-size as
x with enabled encoding-duration (else decoding-duration) as y, when both
resolve; step 2: the first enabled metric as x and a second,
position-distinct enabled metric as y, repeating x when it is the only
enabled one; step 3: no enabled metric at all — the first discovered metric
for both axes; step 4: no metrics at all — no selection for either axis. -/
def selectPlotMetricsSpec (firstBatch : Batch) (metrics : List FieldMetric) :
    Option FieldMetric × Option FieldMetric :=
  let enabledSize := metrics.find? (fun m =>
    m.enabled && decide (metricFieldId firstBatch m = FieldId.encodedSize))
  let enabledDuration := match metrics.find? (fun m =>
      m.enabled && decide (metricFieldId firstBatch m = FieldId.encodingDuration)) with
    | some y => some y
    | none => metrics.find? (fun m =>
        m.enabled && decide (metricFieldId firstBatch m = FieldId.decodingDuration))
  if enabledSize.isSome ∧ enabledDuration.isSome then (enabledSize, enabledDuration)
  else
    match metrics.findIdx? (fun m => m.enabled) with
    | some i =>
      (some (metrics.getD i default),
       some (match metrics.enum.find? (fun p => p.2.enabled && decide (p.1 ≠ i)) with
             | some p => p.2
             | none => metrics.getD i default))
    | none =>
      match metrics with
      | [] => (none, none)
      | m :: _ => (some m, some m)

/-- Modelled from the spec: `filter.ts` is not under src/. One filter per
field: inclusive numeric bounds and the set of accepted categorical values. -/
structure FieldFilter where
  rangeStart : ℚ := 0
  rangeEnd : ℚ := 0
  uniqueValues : Finset String := ∅
deriving DecidableEq

instance : Inhabited FieldFilter := ⟨{}⟩

/-- The fieldFilters creation loop of the BatchSelection constructor
(batch_selection.ts lines 45-55): one filter per field, numeric bounds set
to the field's full observed range, and for a categorical field the accepted
set filled with the field's full unique-value set. -/
def initFieldFilters (batch : Batch) : List FieldFilter :=
  batch.fields.map fun field =>
    { rangeStart := field.rangeStart,
      rangeEnd := field.rangeEnd,
      uniqueValues := if field.isNumber then ∅ else field.uniqueValuesArray.toFinset }

/-- One Batch to compare with another (class `BatchSelection` in
batch_selection.ts). The FILTER_CHANGED event subscription of the
constructor is notification-boundary wiring (spec section 6) and is outside
this embedding. -/
structure BatchSelection where
  batch : Batch
  fieldFilters : List FieldFilter
  filteredRowIndices : List ℕ
  matchedDataPoints : List Match
  stats : List FieldMetricStats

/-- The BatchSelection constructor (batch_selection.ts lines 41-66): create
the field filters from the batch's fields, then apply enableDefaultFilters
to them exactly once. `enableDefaultFilters` lives in filter.ts, which is
not under src/ and whose narrowing heuristic the spec leaves unspecified, so
it is taken as a parameter here. -/
def BatchSelection.construct (enableDefaultFilters : Batch → List FieldFilter → List FieldFilter)
    (selectedBatch : Batch) : BatchSelection :=
  { batch := selectedBatch,
    fieldFilters := enableDefaultFilters selectedBatch (initFieldFilters selectedBatch),
    filteredRowIndices := [],
    matchedDataPoints := [],
    stats := [] }

/-- The slice of the global `State` read by the MatchesUi handler. -/
structure AppState where
  referenceBatchSelectionIndex : ℕ
  batchSelections : List BatchSelection

/-- The display-relevant state of the MatchesUi component: which batch
selection the panel shows, and its CSS display value. -/
structure MatchesUiState where
  batchSelection : Option BatchSelection
  display : String

/-- The MATCHES_INFO_REQUEST handler registered in MatchesUi
connectedCallback (matches_ui.ts lines 41-50): a request for the reference
batch itself is ignored, otherwise the panel is pointed at the requested
batch selection and shown. -/
def onMatchesInfoRequest (state : AppState) (ui : MatchesUiState) (batchIndex : ℕ) :
    MatchesUiState :=
  if batchIndex = state.referenceBatchSelectionIndex then ui
  else
    { batchSelection := state.batchSelections[batchIndex]?,
      display := "block" }

/-- Concrete field used to refute the exactly-one-comparable-field reading of
the createMetrics claim: a numeric encoded-size field. -/
def cxField : Field := { id := FieldId.encodedSize, isNumber := true }

/-- A second, distinct encoded-size field (different observed range):
comparability ignores ranges, so it is also comparable to `cxField`. -/
def cxFieldB : Field := { id := FieldId.encodedSize, isNumber := true, rangeEnd := 2 }

/-- First counterexample batch: a single encoded-size field. -/
def cxBatchA : Batch := { index := 0, fields := [cxField], rows := [] }

/-- Second counterexample batch: two distinct fields both comparable to
`cxField`. -/
def cxBatchB : Batch := { index := 1, fields := [cxField, cxFieldB], rows := [] }

/-- C1: getRatio is total and never raises: for all numbers a and b, if
b == 0 then getRatio(a, b) returns 1 when a == 0 and +infinity otherwise; if
b != 0 it returns a / b. In particular getRatio(0,0) == 1, getRatio(5,0) ==
+infinity, getRatio(0,5) == 0, getRatio(4,2) == 2. -/
theorem getRatio_total_spec :
    (∀ a b : ℚ,
      (b = 0 → (a = 0 → getRatio a b = ENum.fin 1) ∧ (a ≠ 0 → getRatio a b = ENum.inf))
      ∧ (b ≠ 0 → getRatio a b = ENum.fin (a / b)))
    ∧ getRatio 0 0 = ENum.fin 1 ∧ getRatio 5 0 = ENum.inf
    ∧ getRatio 0 5 = ENum.fin 0 ∧ getRatio 4 2 = ENum.fin 2 := by
  refine ⟨fun a b => ⟨fun hb => ⟨fun ha => ?_, fun ha => ?_⟩, fun hb => ?_⟩, ?_, ?_, ?_, ?_⟩
  · simp [getRatio, ha, hb]
  · simp [getRatio, ha, hb]
  · simp [getRatio, hb]
  · simp [getRatio]
  · norm_num [getRatio]
  · norm_num [getRatio]
  · norm_num [getRatio]

/-- Witness for C1: the branch hypotheses of `getRatio_total_spec` discharged
at the concrete inputs of the claim. -/
theorem getRatio_total_spec_witness :
    ((5 : ℚ) ≠ 0 ∧ getRatio 5 0 = ENum.inf)
    ∧ ((2 : ℚ) ≠ 0 ∧ getRatio 4 2 = ENum.fin (4 / 2)) :=
  ⟨⟨by norm_num, ((getRatio_total_spec.1 5 0).1 rfl).2 (by norm_num)⟩,
   ⟨by norm_num, (getRatio_total_spec.1 4 2).2 (by norm_num)⟩⟩

/-- C2: for every pair of batches and every metrics list, computeStats called
with an empty match list returns one FieldMetricStats per input metric, in
input order, and every returned entry has geometricMean, minRatio, maxRatio
and arithmeticMean all equal to the identity default 1. -/
theorem computeStats_empty_matches_identity (leftBatch rightBatch : Batch)
    (metrics : List FieldMetric) :
    computeStats leftBatch rightBatch [] metrics
      = metrics.map (fun _ =>
          ({ geometricMean := 1,
             minRatio := .fin 1,
             maxRatio := .fin 1,
             arithmeticMean := .fin 1 } : FieldMetricStats))
    ∧ (computeStats leftBatch rightBatch [] metrics).length = metrics.length := by
  constructor
  · unfold computeStats
    induction metrics with
    | nil => rfl
    | cons m ms ih =>
      rw [List.map_cons, List.map_cons, ih]
      rfl
  · simp [computeStats]

/-- C7: a matches-info request whose batch index equals the reference batch
selection index is ignored: the handler returns the panel state unchanged,
producing no self-match display. -/
theorem matchesInfoRequest_self_ignored (state : AppState) (ui : MatchesUiState)
    (batchIndex : ℕ) (h : batchIndex = state.referenceBatchSelectionIndex) :
    onMatchesInfoRequest state ui batchIndex = ui := by
  simp [onMatchesInfoRequest, h]

/-- Witness for C7: a concrete self-request leaves a concrete panel state
unchanged. -/
theorem matchesInfoRequest_self_ignored_witness :
    onMatchesInfoRequest { referenceBatchSelectionIndex := 0, batchSelections := [] }
      { batchSelection := none, display := "none" } 0
      = { batchSelection := none, display := "none" } :=
  matchesInfoRequest_self_ignored _ _ _ rfl

/-- C10: enableDefaultMetrics only ever sets the enabled flag to true, and
only on metrics whose first-batch field id is ENCODED_SIZE,
ENCODING_DURATION or DECODING_DURATION: each output metric keeps its
fieldIndices and has enabled equal to its old flag OR-ed with that id test,
so nothing is ever disabled and no other part of any metric is modified (the
batch, read only through `metricFieldId`, is not modified at all in this
functional model). -/
theorem enableDefaultMetrics_monotone (firstBatch : Batch) (metrics : List FieldMetric) :
    enableDefaultMetrics firstBatch metrics
      = metrics.map (fun m =>
          { enabled := m.enabled ||
              (decide (metricFieldId firstBatch m = FieldId.encodedSize) ||
               decide (metricFieldId firstBatch m = FieldId.encodingDuration) ||
               decide (metricFieldId firstBatch m = FieldId.decodingDuration)),
            fieldIndices := m.fieldIndices }) := by
  unfold enableDefaultMetrics
  apply List.map_congr_left
  intro m _
  by_cases h1 : metricFieldId firstBatch m = FieldId.encodedSize <;>
    by_cases h2 : metricFieldId firstBatch m = FieldId.encodingDuration <;>
      by_cases h3 : metricFieldId firstBatch m = FieldId.decodingDuration <;>
        simp [h1, h2, h3]

/-- A successful find? needs a nonempty list. -/
theorem find?_some_ne_nil {α : Type} {p : α → Bool} {l : List α} {x : α}
    (h : l.find? p = some x) : l ≠ [] := by
  rintro rfl
  simp at h

/-- A successful findIdx? needs a nonempty list. -/
theorem findIdx?_some_ne_nil {α : Type} {p : α → Bool} {l : List α} {i : ℕ}
    (h : l.findIdx? p = some i) : l ≠ [] := by
  rintro rfl
  simp [List.findIdx?] at h

/-- C9: selectPlotMetrics returns a pair whose two components are either both
defined or both undefined, and the pair (undefined, undefined) is returned
exactly when the metrics list is empty. -/
theorem selectPlotMetrics_both_or_neither (firstBatch : Batch) (metrics : List FieldMetric) :
    ((selectPlotMetrics firstBatch metrics).1.isSome
      ↔ (selectPlotMetrics firstBatch metrics).2.isSome)
    ∧ (selectPlotMetrics firstBatch metrics = (none, none) ↔ metrics = []) := by
  unfold selectPlotMetrics
  split
  next x y hx hy =>
    have hne : metrics ≠ [] := find?_some_ne_nil hx
    simp [hne]
  next =>
    split
    next i hi =>
      have hne : metrics ≠ [] := findIdx?_some_ne_nil hi
      simp [hne]
    next =>
      rcases metrics with _ | ⟨m0, ms⟩
      · simp
      · simp

/-- C6: selectPlotMetrics follows the four-step precedence exactly: it
coincides, for every firstBatch and metrics list, with the step-by-step
selection `selectPlotMetricsSpec` written from the claim wording (enabled
encoded-size with enabled encoding- else decoding-duration when both
resolve; else the first enabled metric with a second distinct enabled metric,
repeated when it is alone; else the first discovered metric twice; else no
selection). -/
theorem selectPlotMetrics_follows_spec_precedence (firstBatch : Batch)
    (metrics : List FieldMetric) :
    selectPlotMetrics firstBatch metrics = selectPlotMetricsSpec firstBatch metrics := by
  unfold selectPlotMetrics selectPlotMetricsSpec
  cases h1 : metrics.find? (fun m =>
      m.enabled && decide (metricFieldId firstBatch m = FieldId.encodedSize)) <;>
    cases h2 : metrics.find? (fun m =>
        m.enabled && decide (metricFieldId firstBatch m = FieldId.encodingDuration)) <;>
      cases h3 : metrics.find? (fun m =>
          m.enabled && decide (metricFieldId firstBatch m = FieldId.decodingDuration)) <;>
        simp [h1, h2, h3]

theorem statsStep_numDataPoints (l r : Batch) (lfi rfi : ℕ) (acc : StatsAcc) (dp : Match) :
    (statsStep l r lfi rfi acc dp).numDataPoints = acc.numDataPoints + 1 := rfl

theorem statsStep_leftSum (l r : Batch) (lfi rfi : ℕ) (acc : StatsAcc) (dp : Match) :
    (statsStep l r lfi rfi acc dp).leftSum = acc.leftSum + rowValue l dp.leftIndex lfi := rfl

theorem statsStep_rightSum (l r : Batch) (lfi rfi : ℕ) (acc : StatsAcc) (dp : Match) :
    (statsStep l r lfi rfi acc dp).rightSum = acc.rightSum + rowValue r dp.rightIndex rfi := rfl

theorem statsStep_fieldStats_pos (l r : Batch) (lfi rfi : ℕ) (acc : StatsAcc) (dp : Match)
    (h : acc.numDataPoints ≠ 0) :
    (statsStep l r lfi rfi acc dp).fieldStats
      = { acc.fieldStats with
          minRatio := ENum.min acc.fieldStats.minRatio (matchRatio l r lfi rfi dp),
          maxRatio := ENum.max acc.fieldStats.maxRatio (matchRatio l r lfi rfi dp) } := by
  simp [statsStep, matchRatio, h]

theorem statsStep_fieldStats_zero (l r : Batch) (lfi rfi : ℕ) (acc : StatsAcc) (dp : Match)
    (h : acc.numDataPoints = 0) :
    (statsStep l r lfi rfi acc dp).fieldStats
      = { acc.fieldStats with
          minRatio := matchRatio l r lfi rfi dp,
          maxRatio := matchRatio l r lfi rfi dp } := by
  simp [statsStep, matchRatio, h]

/-- What the computeStats loop does to a state that has already seen at least
one data point: it adds the remaining lengths and sums and folds the
remaining ratios into minRatio and maxRatio, leaving geometricMean and
arithmeticMean untouched. -/
theorem statsFold_pos (l r : Batch) (lfi rfi : ℕ) :
    ∀ (ds : List Match) (acc : StatsAcc), acc.numDataPoints ≠ 0 →
      ((ds.foldl (statsStep l r lfi rfi) acc).numDataPoints = acc.numDataPoints + ds.length)
      ∧ ((ds.foldl (statsStep l r lfi rfi) acc).leftSum
          = acc.leftSum + (ds.map fun dp => rowValue l dp.leftIndex lfi).sum)
      ∧ ((ds.foldl (statsStep l r lfi rfi) acc).rightSum
          = acc.rightSum + (ds.map fun dp => rowValue r dp.rightIndex rfi).sum)
      ∧ ((ds.foldl (statsStep l r lfi rfi) acc).fieldStats.minRatio
          = (ds.map (matchRatio l r lfi rfi)).foldl ENum.min acc.fieldStats.minRatio)
      ∧ ((ds.foldl (statsStep l r lfi rfi) acc).fieldStats.maxRatio
          = (ds.map (matchRatio l r lfi rfi)).foldl ENum.max acc.fieldStats.maxRatio)
      ∧ ((ds.foldl (statsStep l r lfi rfi) acc).fieldStats.geometricMean
          = acc.fieldStats.geometricMean)
      ∧ ((ds.foldl (statsStep l r lfi rfi) acc).fieldStats.arithmeticMean
          = acc.fieldStats.arithmeticMean) := by
  intro ds
  induction ds with
  | nil => intro acc h; simp
  | cons d ds ih =>
    intro acc h
    obtain ⟨h1, h2, h3, h4, h5, h6, h7⟩ :=
      ih (statsStep l r lfi rfi acc d) (by simp [statsStep_numDataPoints])
    rw [List.foldl_cons]
    have hfs := statsStep_fieldStats_pos l r lfi rfi acc d h
    refine ⟨?_, ?_, ?_, ?_, ?_, ?_, ?_⟩
    · rw [h1, statsStep_numDataPoints]; simp; omega
    · rw [h2, statsStep_leftSum]; simp [add_assoc]
    · rw [h3, statsStep_rightSum]; simp [add_assoc]
    · rw [h4, hfs]; simp
    · rw [h5, hfs]; simp
    · rw [h6, hfs]
    · rw [h7, hfs]

/-- The three statistics of one metric on a nonempty match list: the
arithmetic mean is the ratio of the summed left values to the summed right
values, and minRatio and maxRatio fold `Math.min` and `Math.max` over the
per-match ratios starting from the first match's ratio. -/
theorem statsForMetric_cons (l r : Batch) (d : Match) (ds : List Match) (m : FieldMetric) :
    (statsForMetric l r (d :: ds) m).arithmeticMean
      = getRatio
          (((d :: ds).map fun dp =>
            rowValue l dp.leftIndex (m.fieldIndices.getD l.index 0)).sum)
          (((d :: ds).map fun dp =>
            rowValue r dp.rightIndex (m.fieldIndices.getD r.index 0)).sum)
    ∧ (statsForMetric l r (d :: ds) m).minRatio
      = (ds.map (matchRatio l r (m.fieldIndices.getD l.index 0)
            (m.fieldIndices.getD r.index 0))).foldl ENum.min
          (matchRatio l r (m.fieldIndices.getD l.index 0) (m.fieldIndices.getD r.index 0) d)
    ∧ (statsForMetric l r (d :: ds) m).maxRatio
      = (ds.map (matchRatio l r (m.fieldIndices.getD l.index 0)
            (m.fieldIndices.getD r.index 0))).foldl ENum.max
          (matchRatio l r (m.fieldIndices.getD l.index 0) (m.fieldIndices.getD r.index 0) d) := by
  have hinit : ∀ dp : Match,
      statsStep l r (m.fieldIndices.getD l.index 0) (m.fieldIndices.getD r.index 0)
        { fieldStats := FieldMetricStats.init, numDataPoints := 0, gm := GeometricMean.empty,
          leftSum := 0, rightSum := 0 } dp
      = { fieldStats :=
            { geometricMean := 1,
              minRatio := matchRatio l r (m.fieldIndices.getD l.index 0)
                (m.fieldIndices.getD r.index 0) dp,
              maxRatio := matchRatio l r (m.fieldIndices.getD l.index 0)
                (m.fieldIndices.getD r.index 0) dp,
              arithmeticMean := .fin 1 },
          numDataPoints := 1,
          gm := GeometricMean.empty.add (matchRatio l r (m.fieldIndices.getD l.index 0)
            (m.fieldIndices.getD r.index 0) dp),
          leftSum := 0 + rowValue l dp.leftIndex (m.fieldIndices.getD l.index 0),
          rightSum := 0 + rowValue r dp.rightIndex (m.fieldIndices.getD r.index 0) } := by
    intro dp
    simp [statsStep, matchRatio, FieldMetricStats.init]
  obtain ⟨h1, h2, h3, h4, h5, h6, h7⟩ :=
    statsFold_pos l r (m.fieldIndices.getD l.index 0) (m.fieldIndices.getD r.index 0) ds
      (statsStep l r (m.fieldIndices.getD l.index 0) (m.fieldIndices.getD r.index 0)
        { fieldStats := FieldMetricStats.init, numDataPoints := 0, gm := GeometricMean.empty,
          leftSum := 0, rightSum := 0 } d)
      (by simp [statsStep_numDataPoints])
  have hpos : 0 < ((d :: ds).foldl
      (statsStep l r (m.fieldIndices.getD l.index 0) (m.fieldIndices.getD r.index 0))
      { fieldStats := FieldMetricStats.init, numDataPoints := 0, gm := GeometricMean.empty,
        leftSum := 0, rightSum := 0 }).numDataPoints := by
    rw [List.foldl_cons, h1, statsStep_numDataPoints]
    omega
  dsimp only [statsForMetric]
  rw [if_pos hpos, List.foldl_cons]
  refine ⟨?_, ?_, ?_⟩
  · dsimp only
    rw [h2, h3, statsStep_leftSum, statsStep_rightSum]
    simp
  · dsimp only
    rw [h4, hinit d]
  · dsimp only
    rw [h5, hinit d]

/-- Indexing into the computeStats result selects the per-metric statistics
of the metric at the same position. -/
theorem computeStats_getD (l r : Batch) (dps : List Match) (metrics : List FieldMetric)
    (i : ℕ) (hi : i < metrics.length) :
    (computeStats l r dps metrics).getD i default
      = statsForMetric l r dps (metrics.getD i default) := by
  unfold computeStats
  rw [List.getD_eq_getElem?_getD, List.getD_eq_getElem?_getD, List.getElem?_map,
      List.getElem?_eq_getElem hi]
  rfl

/-- C4: for every metric and every non-empty match list, the arithmeticMean
returned by computeStats equals getRatio applied to the sum of the left
rows' field values and the sum of the right rows' field values — a ratio of
totals, not the average of the per-match ratios. -/
theorem computeStats_arithmeticMean_ratio_of_totals (l r : Batch) (dps : List Match)
    (metrics : List FieldMetric) (i : ℕ) (hi : i < metrics.length) (hne : dps ≠ []) :
    ((computeStats l r dps metrics).getD i default).arithmeticMean
      = getRatio
          ((dps.map fun dp =>
            rowValue l dp.leftIndex ((metrics.getD i default).fieldIndices.getD l.index 0)).sum)
          ((dps.map fun dp =>
            rowValue r dp.rightIndex ((metrics.getD i default).fieldIndices.getD r.index 0)).sum) := by
  obtain ⟨d, ds, rfl⟩ := List.exists_cons_of_ne_nil hne
  rw [computeStats_getD l r _ metrics i hi]
  exact (statsForMetric_cons l r d ds _).1

/-- Witness for C4: left row value 4, right row value 2 on a single match;
the arithmetic mean is getRatio (4, 2) = 2. -/
theorem computeStats_arithmeticMean_witness :
    (([(⟨0, 0⟩ : Match)] : List Match) ≠ [])
    ∧ ((computeStats { index := 0, fields := [cxField], rows := [[4]] }
          { index := 1, fields := [cxField], rows := [[2]] }
          [⟨0, 0⟩] [{ enabled := true, fieldIndices := [0, 0] }]).getD 0 default).arithmeticMean
        = ENum.fin 2 :=
  ⟨by decide,
    (computeStats_arithmeticMean_ratio_of_totals
        { index := 0, fields := [cxField], rows := [[4]] }
        { index := 1, fields := [cxField], rows := [[2]] }
        [⟨0, 0⟩] [{ enabled := true, fieldIndices := [0, 0] }] 0 (by decide) (by decide)).trans
      (by norm_num [rowValue, getRatio, List.getD])⟩

theorem ENum.max_inf_right (a : ENum) : ENum.max a .inf = .inf := by cases a <;> rfl

theorem ENum.max_inf_left (a : ENum) : ENum.max .inf a = .inf := rfl

/-- Folding `Math.max` over ratios returns Infinity as soon as the starting
value or any folded value is Infinity. -/
theorem foldl_max_inf :
    ∀ (xs : List ENum) (a : ENum), (a = ENum.inf ∨ ENum.inf ∈ xs) →
      xs.foldl ENum.max a = ENum.inf := by
  intro xs
  induction xs with
  | nil =>
    intro a h
    rcases h with rfl | h
    · rfl
    · simp at h
  | cons x xs ih =>
    intro a h
    rw [List.foldl_cons]
    rcases h with rfl | h
    · exact ih _ (Or.inl (ENum.max_inf_left x))
    · rcases List.mem_cons.mp h with rfl | hx
      · exact ih _ (Or.inl (ENum.max_inf_right a))
      · exact ih _ (Or.inr hx)

/-- C5: for every metric and every non-empty match list, minRatio and
maxRatio returned by computeStats are the fold of Math.min respectively
Math.max over the per-match ratios getRatio(leftValue, rightValue), both
started from the first match's ratio rather than from a sentinel such as 0
or 1; an infinite ratio propagates into maxRatio. -/
theorem computeStats_min_max_from_first_ratio (l r : Batch) (d : Match) (ds : List Match)
    (metrics : List FieldMetric) (i : ℕ) (hi : i < metrics.length) :
    ((computeStats l r (d :: ds) metrics).getD i default).minRatio
      = (ds.map (matchRatio l r ((metrics.getD i default).fieldIndices.getD l.index 0)
            ((metrics.getD i default).fieldIndices.getD r.index 0))).foldl ENum.min
          (matchRatio l r ((metrics.getD i default).fieldIndices.getD l.index 0)
            ((metrics.getD i default).fieldIndices.getD r.index 0) d)
    ∧ ((computeStats l r (d :: ds) metrics).getD i default).maxRatio
      = (ds.map (matchRatio l r ((metrics.getD i default).fieldIndices.getD l.index 0)
            ((metrics.getD i default).fieldIndices.getD r.index 0))).foldl ENum.max
          (matchRatio l r ((metrics.getD i default).fieldIndices.getD l.index 0)
            ((metrics.getD i default).fieldIndices.getD r.index 0) d)
    ∧ (ENum.inf ∈ (d :: ds).map (matchRatio l r
          ((metrics.getD i default).fieldIndices.getD l.index 0)
          ((metrics.getD i default).fieldIndices.getD r.index 0)) →
        ((computeStats l r (d :: ds) metrics).getD i default).maxRatio = ENum.inf) := by
  rw [computeStats_getD l r _ metrics i hi]
  obtain ⟨_, h2, h3⟩ := statsForMetric_cons l r d ds (metrics.getD i default)
  refine ⟨h2, h3, ?_⟩
  intro hmem
  rw [h3]
  rw [List.map_cons] at hmem
  rcases List.mem_cons.mp hmem with hd | hds
  · exact foldl_max_inf _ _ (Or.inl hd.symm)
  · exact foldl_max_inf _ _ (Or.inr hds)

/-- Witness for C5: two matches with ratios 4/2 = 2 and 1/2; minRatio is 1/2
and maxRatio is 2, the fold having started from the first ratio 2. -/
theorem computeStats_min_max_witness :
    ((computeStats { index := 0, fields := [cxField], rows := [[4], [1]] }
        { index := 1, fields := [cxField], rows := [[2], [2]] }
        [⟨0, 0⟩, ⟨1, 1⟩] [{ enabled := true, fieldIndices := [0, 0] }]).getD 0 default).minRatio
      = ENum.fin (1 / 2)
    ∧ ((computeStats { index := 0, fields := [cxField], rows := [[4], [1]] }
        { index := 1, fields := [cxField], rows := [[2], [2]] }
        [⟨0, 0⟩, ⟨1, 1⟩] [{ enabled := true, fieldIndices := [0, 0] }]).getD 0 default).maxRatio
      = ENum.fin 2 :=
  ⟨((computeStats_min_max_from_first_ratio
        { index := 0, fields := [cxField], rows := [[4], [1]] }
        { index := 1, fields := [cxField], rows := [[2], [2]] }
        ⟨0, 0⟩ [⟨1, 1⟩] [{ enabled := true, fieldIndices := [0, 0] }] 0 (by decide)).1).trans
      (by norm_num [matchRatio, rowValue, getRatio, List.getD, ENum.min, min_def]),
   ((computeStats_min_max_from_first_ratio
        { index := 0, fields := [cxField], rows := [[4], [1]] }
        { index := 1, fields := [cxField], rows := [[2], [2]] }
        ⟨0, 0⟩ [⟨1, 1⟩] [{ enabled := true, fieldIndices := [0, 0] }] 0 (by decide)).2.1).trans
      (by norm_num [matchRatio, rowValue, getRatio, List.getD, ENum.max, max_def])⟩

/-- A successful findIdx? points at an element satisfying the predicate. -/
theorem findIdx?_some_spec {α : Type} (p : α → Bool) :
    ∀ (l : List α) (j : ℕ), l.findIdx? p = some j → ∃ x, l[j]? = some x ∧ p x = true := by
  intro l
  induction l with
  | nil => intro j h; simp [List.findIdx?] at h
  | cons a as ih =>
    intro j h
    rw [List.findIdx?_cons] at h
    by_cases hp : p a
    · simp [hp] at h
      exact ⟨a, by simp [← h], hp⟩
    · simp [hp] at h
      obtain ⟨j', hj', rfl⟩ := h
      obtain ⟨x, hx, hpx⟩ := ih j' hj'
      exact ⟨x, by simpa using hx, hpx⟩

/-- What a successful inner loop of createMetrics guarantees: one index per
other batch, each the first comparable field of that batch. -/
theorem findComparableIndices_spec (field : Field) :
    ∀ (bs : List Batch) (indices : List ℕ) (isNum : Bool),
      findComparableIndices field bs = some (indices, isNum) →
      indices.length = bs.length
      ∧ (∀ k b, bs[k]? = some b →
          ∃ j, b.fields.findIdx? (fun g => areFieldsComparable field g) = some j
            ∧ indices.getD k 0 = j) := by
  intro bs
  induction bs with
  | nil =>
    intro indices isNum h
    simp [findComparableIndices] at h
    obtain ⟨rfl, rfl⟩ := h
    exact ⟨rfl, by intro k b hk; simp at hk⟩
  | cons b0 bs ih =>
    intro indices isNum h
    cases hf : b0.fields.findIdx? (fun g => areFieldsComparable field g) with
    | none => simp [findComparableIndices, hf] at h
    | some j =>
      cases hrec : findComparableIndices field bs with
      | none => simp [findComparableIndices, hf, hrec] at h
      | some pair =>
        obtain ⟨js, isN⟩ := pair
        simp [findComparableIndices, hf, hrec] at h
        obtain ⟨rfl, -⟩ := h
        obtain ⟨hlen, hks⟩ := ih js isN hrec
        refine ⟨by simp [hlen], ?_⟩
        intro k b hk
        match k with
        | 0 =>
          simp at hk
          subst hk
          exact ⟨j, hf, rfl⟩
        | Nat.succ k' =>
          simp at hk
          obtain ⟨j', hj', hgd⟩ := hks k' b hk
          exact ⟨j', hj', by simpa using hgd⟩

/-- What an emitted createMetrics candidate guarantees. -/
theorem metricCandidate_some_spec (otherBatches : List Batch) (i : ℕ) (f : Field)
    (m : FieldMetric) (h : metricCandidate otherBatches (i, f) = some m) :
    ∃ indices isNum,
      findComparableIndices f otherBatches = some (indices, isNum)
      ∧ (f.isNumber && isNum) = true
      ∧ ¬(f.id = FieldId.width ∨ f.id = FieldId.height ∨
          f.id = FieldId.effort ∨ f.id = FieldId.quality)
      ∧ m = { enabled := false, fieldIndices := i :: indices } := by
  unfold metricCandidate at h
  cases hfc : findComparableIndices f otherBatches with
  | none => rw [hfc] at h; simp at h
  | some pair =>
    obtain ⟨indices, isNum⟩ := pair
    rw [hfc] at h
    simp only at h
    by_cases hnum : (f.isNumber && isNum) = true
    · by_cases hid : f.id = FieldId.width ∨ f.id = FieldId.height ∨
          f.id = FieldId.effort ∨ f.id = FieldId.quality
      · rw [if_pos hnum, if_pos hid] at h
        exact absurd h (by simp)
      · rw [if_pos hnum, if_neg hid] at h
        refine ⟨indices, isNum, rfl, hnum, hid, ?_⟩
        simpa using h.symm
    · rw [if_neg hnum] at h
      exact absurd h (by simp)

/-- The heads of the metrics emitted while scanning the enumerated field list
are strictly increasing and bounded below by the starting counter. -/
theorem filterMap_enumFrom_heads (g : ℕ × Field → Option FieldMetric)
    (hg : ∀ i f m, g (i, f) = some m → m.fieldIndices.getD 0 0 = i) :
    ∀ (l : List Field) (k : ℕ),
      ((((l.enumFrom k).filterMap g).map fun m => m.fieldIndices.getD 0 0).Pairwise (· < ·))
      ∧ ∀ x ∈ ((l.enumFrom k).filterMap g).map fun m => m.fieldIndices.getD 0 0, k ≤ x := by
  intro l
  induction l with
  | nil => intro k; simp
  | cons f fs ih =>
    intro k
    rw [show (f :: fs).enumFrom k = (k, f) :: fs.enumFrom (k + 1) from rfl, List.filterMap_cons]
    cases hg0 : g (k, f) with
    | none =>
      exact ⟨(ih (k + 1)).1, fun x hx => le_trans (Nat.le_succ k) ((ih (k + 1)).2 x hx)⟩
    | some m =>
      rw [List.map_cons]
      constructor
      · rw [List.pairwise_cons]
        refine ⟨fun x hx => ?_, (ih (k + 1)).1⟩
        rw [hg k f m hg0]
        exact lt_of_lt_of_le (Nat.lt_succ_self k) ((ih (k + 1)).2 x hx)
      · intro x hx
        rcases List.mem_cons.mp hx with rfl | hx'
        · rw [hg k f m hg0]
        · exact le_trans (Nat.le_succ k) ((ih (k + 1)).2 x hx')

/-- C3 (amended): createMetrics emits a FieldMetric for a field of the first
batch only if every batch has at least one comparable field — the first
comparable field found in each other batch is the one referenced — the field
is numeric, and its semantic id is not WIDTH, HEIGHT, EFFORT or QUALITY; the
emitted metrics follow the first batch's field order (their first indices
are strictly increasing), and a candidate with no comparable field in some
batch is dropped entirely, so every emitted metric carries exactly one field
index per batch. -/
theorem createMetrics_emission_sound (firstBatch : Batch) (otherBatches : List Batch) :
    (∀ m ∈ createMetrics (firstBatch :: otherBatches),
      m.enabled = false
      ∧ m.fieldIndices.length = (firstBatch :: otherBatches).length
      ∧ ∃ fieldIndex field,
          firstBatch.fields[fieldIndex]? = some field
          ∧ m.fieldIndices.getD 0 0 = fieldIndex
          ∧ field.isNumber = true
          ∧ field.id ≠ FieldId.width ∧ field.id ≠ FieldId.height
          ∧ field.id ≠ FieldId.effort ∧ field.id ≠ FieldId.quality
          ∧ (∀ k b, otherBatches[k]? = some b →
              ∃ j, b.fields.findIdx? (fun g => areFieldsComparable field g) = some j
                ∧ m.fieldIndices.getD (k + 1) 0 = j)
          ∧ ∀ b ∈ firstBatch :: otherBatches, ∃ g ∈ b.fields, areFieldsComparable field g = true)
    ∧ (((createMetrics (firstBatch :: otherBatches)).map fun m =>
          m.fieldIndices.getD 0 0).Pairwise (· < ·)) := by
  constructor
  · intro m hm
    unfold createMetrics at hm
    obtain ⟨⟨i, f⟩, ha, hc⟩ := List.mem_filterMap.mp hm
    have hif : firstBatch.fields[i]? = some f := List.mk_mem_enum_iff_getElem?.mp ha
    obtain ⟨indices, isNum, hfc, hnum, hid, rfl⟩ := metricCandidate_some_spec otherBatches i f m hc
    obtain ⟨hlen, hks⟩ := findComparableIndices_spec f otherBatches indices isNum hfc
    push_neg at hid
    obtain ⟨hw, hh, he, hq⟩ := hid
    refine ⟨rfl, by simp [hlen], i, f, hif, rfl, (Bool.and_eq_true .. ▸ hnum).1, hw, hh, he, hq,
      ?_, ?_⟩
    · intro k b hk
      obtain ⟨j, hj, hgd⟩ := hks k b hk
      exact ⟨j, hj, by simpa using hgd⟩
    · intro b hb
      rcases List.mem_cons.mp hb with rfl | hb'
      · refine ⟨f, List.getElem?_mem hif, ?_⟩
        simp [areFieldsComparable]
      · obtain ⟨k, hk⟩ := List.getElem?_of_mem hb'
        obtain ⟨j, hj, -⟩ := hks k b hk
        obtain ⟨x, hx, hpx⟩ := findIdx?_some_spec _ b.fields j hj
        exact ⟨x, List.getElem?_mem hx, hpx⟩
  · have hcm : createMetrics (firstBatch :: otherBatches)
        = (firstBatch.fields.enumFrom 0).filterMap (metricCandidate otherBatches) := rfl
    rw [hcm]
    refine (filterMap_enumFrom_heads (metricCandidate otherBatches) ?_ firstBatch.fields 0).1
    intro i f m h
    obtain ⟨indices, isNum, -, -, -, rfl⟩ := metricCandidate_some_spec otherBatches i f m h
    rfl

/-- Counterexample for C3 as stated: with a first batch holding one
encoded-size field and a second batch holding two distinct fields both
comparable to it, createMetrics still emits the metric (using the first
comparable field, index 0), although the second batch has two — not exactly
one — comparable fields. -/
theorem createMetrics_exactly_one_refuted :
    createMetrics [cxBatchA, cxBatchB]
      = [{ enabled := false, fieldIndices := [0, 0] }]
    ∧ cxBatchB.fields.countP (fun g => areFieldsComparable cxField g) = 2 := by
  constructor
  · rfl
  · rfl

/-- Witness for C3 (amended): the guarantees instantiated on the emitted
metric of the counterexample batches. -/
theorem createMetrics_emission_sound_witness :
    ({ enabled := false, fieldIndices := [0, 0] } : FieldMetric) ∈ createMetrics [cxBatchA, cxBatchB]
    ∧ (({ enabled := false, fieldIndices := [0, 0] } : FieldMetric).enabled = false
      ∧ ({ enabled := false, fieldIndices := [0, 0] } : FieldMetric).fieldIndices.length
          = ([cxBatchA, cxBatchB] : List Batch).length
      ∧ ∃ fieldIndex field,
          cxBatchA.fields[fieldIndex]? = some field
          ∧ ({ enabled := false, fieldIndices := [0, 0] } : FieldMetric).fieldIndices.getD 0 0
              = fieldIndex
          ∧ field.isNumber = true
          ∧ field.id ≠ FieldId.width ∧ field.id ≠ FieldId.height
          ∧ field.id ≠ FieldId.effort ∧ field.id ≠ FieldId.quality
          ∧ (∀ k b, ([cxBatchB] : List Batch)[k]? = some b →
              ∃ j, b.fields.findIdx? (fun g => areFieldsComparable field g) = some j
                ∧ ({ enabled := false, fieldIndices := [0, 0] } : FieldMetric).fieldIndices.getD
                    (k + 1) 0 = j)
          ∧ ∀ b ∈ [cxBatchA, cxBatchB], ∃ g ∈ b.fields, areFieldsComparable field g = true) :=
  ⟨by decide,
   (createMetrics_emission_sound cxBatchA [cxBatchB]).1
     { enabled := false, fieldIndices := [0, 0] } (by decide)⟩

/-- getD through a map, for in-range indices. -/
theorem getD_map {α β : Type} (f : α → β) (l : List α) (i : ℕ) (hi : i < l.length)
    (d₁ : β) (d₂ : α) : (l.map f).getD i d₁ = f (l.getD i d₂) := by
  rw [List.getD_eq_getElem?_getD, List.getD_eq_getElem?_getD, List.getElem?_map,
      List.getElem?_eq_getElem hi]
  rfl

/-- C8: constructing a BatchSelection from any batch creates exactly one
filter per batch field; each filter starts from the field's full observed
numeric range, a categorical filter additionally starts from the field's
full unique-value set; and the enableDefaultFilters step is applied to that
fully initial filter list exactly once, at construction (its length-preserving
narrowing is the `enableDefaultFilters` parameter). -/
theorem batchSelection_construct_filters
    (enableDefaultFilters : Batch → List FieldFilter → List FieldFilter) (batch : Batch)
    (hlen : ∀ b fs, (enableDefaultFilters b fs).length = fs.length) :
    (BatchSelection.construct enableDefaultFilters batch).fieldFilters
        = enableDefaultFilters batch (initFieldFilters batch)
    ∧ (BatchSelection.construct enableDefaultFilters batch).fieldFilters.length
        = batch.fields.length
    ∧ (initFieldFilters batch).length = batch.fields.length
    ∧ (∀ i, i < batch.fields.length →
        ((initFieldFilters batch).getD i default).rangeStart
            = (batch.fields.getD i default).rangeStart
        ∧ ((initFieldFilters batch).getD i default).rangeEnd
            = (batch.fields.getD i default).rangeEnd)
    ∧ (∀ i, i < batch.fields.length → (batch.fields.getD i default).isNumber = false →
        ((initFieldFilters batch).getD i default).uniqueValues
            = (batch.fields.getD i default).uniqueValuesArray.toFinset) := by
  refine ⟨rfl, ?_, ?_, ?_, ?_⟩
  · rw [BatchSelection.construct, hlen]
    simp [initFieldFilters]
  · simp [initFieldFilters]
  · intro i hi
    unfold initFieldFilters
    rw [getD_map _ batch.fields i hi default default]
    exact ⟨rfl, rfl⟩
  · intro i hi hcat
    unfold initFieldFilters
    rw [getD_map _ batch.fields i hi default default]
    dsimp only
    rw [hcat]
    simp

/-- Witness for C8: a batch with one numeric and one categorical field and
the identity narrowing heuristic. -/
theorem batchSelection_construct_filters_witness :
    (BatchSelection.construct (fun _ fs => fs)
        { index := 0,
          fields := [{ id := FieldId.encodedSize, isNumber := true, rangeStart := 1,
                       rangeEnd := 9 },
                     { id := FieldId.custom 0, isNumber := false,
                       uniqueValuesArray := ["a", "b"] }],
          rows := [] }).fieldFilters
        = (fun (_ : Batch) (fs : List FieldFilter) => fs)
            { index := 0,
              fields := [{ id := FieldId.encodedSize, isNumber := true, rangeStart := 1,
                           rangeEnd := 9 },
                         { id := FieldId.custom 0, isNumber := false,
                           uniqueValuesArray := ["a", "b"] }],
              rows := [] }
            (initFieldFilters
              { index := 0,
                fields := [{ id := FieldId.encodedSize, isNumber := true, rangeStart := 1,
                             rangeEnd := 9 },
                           { id := FieldId.custom 0, isNumber := false,
                             uniqueValuesArray := ["a", "b"] }],
                rows := [] })
    ∧ (BatchSelection.construct (fun _ fs => fs)
        { index := 0,
          fields := [{ id := FieldId.encodedSize, isNumber := true, rangeStart := 1,
                       rangeEnd := 9 },
                     { id := FieldId.custom 0, isNumber := false,
                       uniqueValuesArray := ["a", "b"] }],
          rows := [] }).fieldFilters.length = 2 := by
  have h := batchSelection_construct_filters (fun _ fs => fs)
    { index := 0,
      fields := [{ id := FieldId.encodedSize, isNumber := true, rangeStart := 1,
                   rangeEnd := 9 },
                 { id := FieldId.custom 0, isNumber := false,
                   uniqueValuesArray := ["a", "b"] }],
      rows := [] } (fun _ _ => rfl)
  exact ⟨h.1, h.2.1⟩

end CodecCompare
